import Mathlib

/-!
Verification of the keyframe-extraction and summarization-pipeline core of
the ms-teams-summarizer repository, as a shallow embedding in Lean.

Sources embedded:
- vtt_summarizer/keyframe_extractor.py: relevance scoring with delays,
  candidate selection (de-clustering), frame extraction and file naming.
- vtt_summarizer/consolidated_summarizer.py: the individual phase
  (skip / success / error accounting, summary file writes) and the
  top-level workflow with its no-files guard.

Numeric values from the Python source (floats such as 0.4, 60.0) are
embedded as exact rationals; every arithmetic step in the embedded code is
addition, comparison, max or min of such constants, so the rational
embedding is value-faithful on the reals the source computes with.
Strings are Lean strings; Python substring search, lowercasing and
whitespace splitting are defined structurally below.
-/

/-- Python list/string prefix test on character lists. -/
def isPrefixL : List Char → List Char → Bool
  | [], _ => true
  | _ :: _, [] => false
  | a :: as, b :: bs => a == b && isPrefixL as bs

/-- Python substring operator needle in haystack on character lists. -/
def containsL (nee : List Char) : List Char → Bool
  | [] => nee.isEmpty
  | b :: bs => isPrefixL nee (b :: bs) || containsL nee bs

/-- Python needle in haystack for strings. -/
def strContains (needle haystack : String) : Bool :=
  containsL needle.data haystack.data

/-- Python str.lower, ASCII lowercasing as the source keywords are ASCII. -/
def lowerStr (s : String) : String :=
  String.mk (s.data.map Char.toLower)

/-- Python str.split with no separator: split on whitespace runs, dropping
empty pieces.  Auxiliary recursion carrying the current (reversed) word. -/
def splitWsAux (cur : List Char) : List Char → List (List Char)
  | [] => if cur.isEmpty then [] else [cur.reverse]
  | c :: cs =>
    if c.isWhitespace then
      if cur.isEmpty then splitWsAux [] cs else cur.reverse :: splitWsAux [] cs
    else splitWsAux (c :: cur) cs

/-- Python len of text.split() in _calculate_relevance_score_and_delay. -/
def wordCount (s : String) : ℕ :=
  (splitWsAux [] s.data).length

/-- One entry of the relevance_keywords table of KeyframeExtractor. -/
structure KeywordCategory where
  name : String
  keywords : List String
  delay_seconds : ℚ

/-- The apostrophe character appearing inside two source keywords. -/
def apos : Char := '\x27'

/-- The source keyword written with an apostrophe in the transitions list. -/
def letsGoTo : String := "let" ++ String.singleton apos ++ "s go to"

/-- The source cue word written with an apostrophe in the section-start list. -/
def letsCue : String := "let" ++ String.singleton apos ++ "s"

/-- The relevance_keywords table of KeyframeExtractor.__init__ with its
default delays (no custom_delays overrides), in Python dict insertion
order. -/
def relevance_keywords : List KeywordCategory :=
  [ ⟨"screen_sharing",
     ["share my screen", "can you see", "let me show", "take a look",
      "here you can see", "on the screen"], 3⟩,
    ⟨"screen_sharing_immediate",
     ["sharing my screen", "screen is shared", "you should see"], 0⟩,
    ⟨"demonstrations",
     ["demo", "example", "workflow", "process", "step by step",
      "walk through", "walkthrough"], 2⟩,
    ⟨"technical",
     ["code", "configuration", "setup", "implementation", "architecture",
      "deployment"], 1⟩,
    ⟨"transitions",
     ["next", "now", "moving on", letsGoTo, "switch to", "another thing"], 2⟩,
    ⟨"important",
     ["important", "key", "main", "critical", "essential", "note that",
      "remember"], 1/2⟩,
    ⟨"questions",
     ["question", "ask", "clarify", "understand", "explain"], 1⟩ ]

/-- The per-match score increment of _calculate_relevance_score_and_delay:
the if/elif chain keyed on the category name (the screen_sharing test is a
substring test in the source, matching both screen-sharing categories). -/
def categoryWeight (category : String) : ℚ :=
  if strContains "screen_sharing" category then 4/10
  else if category = "demonstrations" then 3/10
  else if category = "technical" then 2/10
  else if category = "transitions" then 1/10
  else if category = "important" then 15/100
  else if category = "questions" then 1/10
  else 0

/-- The inner keyword loop of _calculate_relevance_score_and_delay for one
category: each matching keyword adds the category weight to the running
score and folds the category delay into the running maximum delay. -/
def categoryFold (text_lower : String) (acc : ℚ × ℚ) (cat : KeywordCategory) : ℚ × ℚ :=
  cat.keywords.foldl
    (fun a kw =>
      if strContains kw text_lower then
        (a.1 + categoryWeight cat.name, max a.2 cat.delay_seconds)
      else a)
    acc

/-- The keyword-matching part of _calculate_relevance_score_and_delay:
running (score, max_delay) over the whole relevance_keywords table,
starting from (0.0, 0.0). -/
def keywordScoreDelay (text_lower : String) : ℚ × ℚ :=
  relevance_keywords.foldl (categoryFold text_lower) (0, 0)

/-- The section-start cue list of _calculate_relevance_score_and_delay. -/
def sectionCues : List String := ["okay", "so", "now", "next", letsCue]

/-- Python any() over the cue phrases against the lowered text. -/
def hasSectionCue (text_lower : String) : Bool :=
  sectionCues.any (fun phrase => strContains phrase text_lower)

/-- Embedding of KeyframeExtractor._calculate_relevance_score_and_delay.
The source receives the full segment list but only uses its length, so the
embedding takes num_segments = len(all_segments).  The word-count branch
reproduces the source if/elif chain exactly, including the unreachable
greater-than-50 arm. -/
def calculate_relevance_score_and_delay
    (text : String) (segment_index : ℕ) (num_segments : ℕ) : ℚ × ℚ :=
  let text_lower := lowerStr text
  let sd := keywordScoreDelay text_lower
  let word_count := wordCount text
  let score1 :=
    if 20 < word_count then sd.1 + 1/10
    else if 50 < word_count then sd.1 + 2/10
    else sd.1
  let score2 :=
    if segment_index < num_segments - 1 then
      if hasSectionCue text_lower then score1 + 1/10 else score1
    else score1
  (min score2 1, sd.2)

/-- Spec-side reading of the delay rule of the scoring routine: the delay
is the maximum delay_seconds over the keyword categories with at least one
keyword occurring case-insensitively in the text, and 0 when none match. -/
def matchedDelayMax (text : String) : ℚ :=
  (relevance_keywords.filter
      (fun c => c.keywords.any (fun kw => strContains kw (lowerStr text)))).foldl
    (fun a c => max a c.delay_seconds) 0

/-- The KeyframeCandidate dataclass of keyframe_extractor.py. -/
structure KeyframeCandidate where
  timestamp_seconds : ℚ
  timestamp_formatted : String
  relevance_score : ℚ
  context_text : String
  segment_index : ℕ
  delay_seconds : ℚ

/-- Chronological comparison used when re-sorting selected candidates. -/
def tsLe (a b : KeyframeCandidate) : Prop :=
  a.timestamp_seconds ≤ b.timestamp_seconds

instance : DecidableRel tsLe :=
  fun a b => inferInstanceAs (Decidable (a.timestamp_seconds ≤ b.timestamp_seconds))

instance : IsTotal KeyframeCandidate tsLe :=
  ⟨fun a b => le_total a.timestamp_seconds b.timestamp_seconds⟩

instance : IsTrans KeyframeCandidate tsLe :=
  ⟨fun _ _ _ hab hbc => le_trans hab hbc⟩

/-- The inner proximity test of _select_best_candidates: the candidate is
too close when some already selected candidate is within 60 seconds. -/
def tooClose (c : KeyframeCandidate) (selected : List KeyframeCandidate) : Bool :=
  selected.any
    (fun s => decide (|c.timestamp_seconds - s.timestamp_seconds| < 60))

/-- The greedy accept loop of _select_best_candidates: walk the candidates,
append each one not too close to the already selected, stopping as soon as
max_frames are selected. -/
def selectLoop (max_frames : ℕ) :
    List KeyframeCandidate → List KeyframeCandidate → List KeyframeCandidate
  | [], selected => selected
  | c :: rest, selected =>
    if tooClose c selected then selectLoop max_frames rest selected
    else
      if max_frames ≤ (selected ++ [c]).length then selected ++ [c]
      else selectLoop max_frames rest (selected ++ [c])

/-- Embedding of KeyframeExtractor._select_best_candidates: lists of at
most max_frames candidates are returned as is; longer lists go through the
greedy de-clustering loop and the survivors are re-sorted by timestamp
(Python list.sort is stable; a stable insertion sort models it). -/
def select_best_candidates (max_frames : ℕ)
    (candidates : List KeyframeCandidate) : List KeyframeCandidate :=
  if candidates.length ≤ max_frames then candidates
  else List.insertionSort tsLe (selectLoop max_frames candidates [])

/-- The spacing relation of the de-clustering loop: at least 60 seconds
between the two timestamps. -/
def spacedApart (a b : KeyframeCandidate) : Prop :=
  60 ≤ |a.timestamp_seconds - b.timestamp_seconds|

/-- Abstraction of an opened cv2.VideoCapture: frame rate, frame count and
which frame reads/writes succeed. -/
structure VideoProps where
  fps : ℚ
  total_frames : ℕ
  readOk : ℤ → Bool
  writeOk : ℤ → Bool

/-- The duration computed in _extract_frames_from_video. -/
def videoDuration (v : VideoProps) : ℚ :=
  (v.total_frames : ℚ) / v.fps

/-- Python int() truncation toward zero on a rational. -/
def pyInt (q : ℚ) : ℤ :=
  if 0 ≤ q then ⌊q⌋ else ⌈q⌉

/-- The ExtractedKeyframe dataclass of keyframe_extractor.py. -/
structure ExtractedKeyframe where
  timestamp_seconds : ℚ
  timestamp_formatted : String
  image_path : String
  context_text : String
  relevance_score : ℚ

/-- The output filename built in the extraction loop for loop index i,
Python f-string base_filename _ (i+1) .png. -/
def keyframeFilename (base_filename : String) (i : ℕ) : String :=
  base_filename ++ "_" ++ toString (i + 1) ++ ".png"

/-- os.path.join of the output directory and the frame filename. -/
def keyframeImagePath (output_dir base_filename : String) (i : ℕ) : String :=
  output_dir ++ "/" ++ keyframeFilename base_filename i

/-- The enumerate loop of _extract_frames_from_video: i is the candidate
index; a candidate is skipped when its timestamp reaches the duration,
when its frame number reaches the frame count, when the read fails, and
when the write fails; otherwise one ExtractedKeyframe is produced, named
with ordinal i+1. -/
def extractLoop (v : VideoProps) (output_dir base_filename : String) :
    ℕ → List KeyframeCandidate → List ExtractedKeyframe
  | _, [] => []
  | i, c :: rest =>
    if videoDuration v ≤ c.timestamp_seconds then
      extractLoop v output_dir base_filename (i + 1) rest
    else if (v.total_frames : ℤ) ≤ pyInt (c.timestamp_seconds * v.fps) then
      extractLoop v output_dir base_filename (i + 1) rest
    else if v.readOk (pyInt (c.timestamp_seconds * v.fps)) = false then
      extractLoop v output_dir base_filename (i + 1) rest
    else if v.writeOk (pyInt (c.timestamp_seconds * v.fps)) = false then
      extractLoop v output_dir base_filename (i + 1) rest
    else
      { timestamp_seconds := c.timestamp_seconds
        timestamp_formatted := c.timestamp_formatted
        image_path := keyframeImagePath output_dir base_filename i
        context_text := c.context_text
        relevance_score := c.relevance_score }
        :: extractLoop v output_dir base_filename (i + 1) rest

/-- Embedding of KeyframeExtractor._extract_frames_from_video: none models
a video file that is missing or cannot be opened, in which case the empty
list is returned; otherwise the enumerate loop runs from index 0. -/
def extract_frames_from_video (video : Option VideoProps)
    (candidates : List KeyframeCandidate)
    (output_dir base_filename : String) : List ExtractedKeyframe :=
  match video with
  | none => []
  | some v => extractLoop v output_dir base_filename 0 candidates

/-- Status strings of the per-folder result dictionaries of
consolidated_summarizer.py. -/
inductive PStatus
  | success
  | skipped
  | error
deriving DecidableEq

/-- The per-folder result dictionary of _process_single_vtt, restricted to
the fields the claims are about. -/
structure SingleResult where
  folder : String
  status : PStatus
  keyframes_extracted : ℕ

/-- The summaries directory as a map from filename to written content,
newest write first. -/
def FileSystem : Type := List (String × String)

/-- Test and lookup of a summary file on disk. -/
def lookupFS (fs : FileSystem) (n : String) : Option String :=
  (fs.find? (fun p => p.1 == n)).map (fun p => p.2)

/-- A write of a summary file, shadowing any earlier content. -/
def writeFS (fs : FileSystem) (n c : String) : FileSystem :=
  (n, c) :: fs

/-- The summary filename built from the default template of config.py,
folder_name followed by _summary.md. -/
def summaryFilename (folder_name : String) : String :=
  folder_name ++ "_summary.md"

/-- One discovered meeting folder, with the environment facts that decide
its processing: whether an unexpected exception escapes the per-item
handler, whether parsing and summary generation succeed, the summary text
produced, the video file (none when no video file is found, some none when
found but not openable), and the selected keyframe candidates. -/
structure FolderJob where
  name : String
  crash : Bool
  pipelineOk : Bool
  summary : String
  video : Option (Option VideoProps)
  candidates : List KeyframeCandidate

/-- The keyframes obtained for a folder in _process_single_vtt: none when
no video file is found, otherwise the extractor output (itself empty when
the video cannot be opened). -/
def keyframesOf (job : FolderJob) : List ExtractedKeyframe :=
  match job.video with
  | none => []
  | some vopen =>
    extract_frames_from_video vopen job.candidates "summaries/images"
      (job.name ++ "_summary")

/-- Embedding of ConsolidatedSummarizer._process_single_vtt: skip when the
summary file exists and force_overwrite is off; otherwise either write the
summary and report success with the keyframe count, or report error when
parsing or generation raised inside the try block. -/
def process_single_vtt (force_overwrite : Bool) (fs : FileSystem)
    (job : FolderJob) : FileSystem × SingleResult :=
  if (lookupFS fs (summaryFilename job.name)).isSome ∧ force_overwrite = false then
    (fs, ⟨job.name, .skipped, 0⟩)
  else if job.pipelineOk then
    (writeFS fs (summaryFilename job.name) job.summary,
     ⟨job.name, .success, (keyframesOf job).length⟩)
  else (fs, ⟨job.name, .error, 0⟩)

/-- One folder of the phase loop of _process_individual_summaries: an
unexpected exception is caught by the surrounding handler and recorded as
an error result; otherwise _process_single_vtt runs. -/
def processOne (force_overwrite : Bool) (fs : FileSystem)
    (job : FolderJob) : FileSystem × SingleResult :=
  if job.crash then (fs, ⟨job.name, .error, 0⟩)
  else process_single_vtt force_overwrite fs job

/-- The folder loop of _process_individual_summaries as pure recursion:
thread the summaries directory through the folders and collect the result
of each folder in order. -/
def runPhase (force_overwrite : Bool) :
    FileSystem → List FolderJob → FileSystem × List SingleResult
  | fs, [] => (fs, [])
  | fs, j :: rest =>
    let r := processOne force_overwrite fs j
    let out := runPhase force_overwrite r.1 rest
    (out.1, r.2 :: out.2)

/-- The aggregate dictionary of _process_individual_summaries, restricted
to the fields the claims are about. -/
structure PhaseResults where
  processed : ℕ
  errors : ℕ
  skipped : ℕ
  results : List SingleResult
  total_folders : ℕ

/-- The folder loop of _process_individual_summaries with the three
counters incremented exactly as in the source: success bumps processed,
skipped bumps skipped, any other status and any escaped exception bumps
errors, and every folder appends one entry to results. -/
def phaseLoop (force_overwrite : Bool) :
    FileSystem → ℕ → ℕ → ℕ → List SingleResult → List FolderJob →
      FileSystem × ℕ × ℕ × ℕ × List SingleResult
  | fs, p, e, s, acc, [] => (fs, p, e, s, acc)
  | fs, p, e, s, acc, j :: rest =>
    if j.crash then
      phaseLoop force_overwrite fs p (e + 1) s
        (acc ++ [⟨j.name, .error, 0⟩]) rest
    else
      let pr := process_single_vtt force_overwrite fs j
      if pr.2.status = .success then
        phaseLoop force_overwrite pr.1 (p + 1) e s (acc ++ [pr.2]) rest
      else if pr.2.status = .skipped then
        phaseLoop force_overwrite pr.1 p e (s + 1) (acc ++ [pr.2]) rest
      else
        phaseLoop force_overwrite pr.1 p (e + 1) s (acc ++ [pr.2]) rest

/-- Embedding of ConsolidatedSummarizer._process_individual_summaries over
already discovered folders: run the loop from zero counters and package
the aggregate results with total_folders = number of folders. -/
def process_individual_summaries (force_overwrite : Bool) (fs : FileSystem)
    (jobs : List FolderJob) : FileSystem × PhaseResults :=
  let out := phaseLoop force_overwrite fs 0 0 0 [] jobs
  (out.1, ⟨out.2.1, out.2.2.1, out.2.2.2.1, out.2.2.2.2, jobs.length⟩)

/-- Count of results with a given status. -/
def countStatus (st : PStatus) (rs : List SingleResult) : ℕ :=
  (rs.filter (fun r => decide (r.status = st))).length

/-- The overall result dictionary of summarize_all, restricted to the
fields the claims are about. -/
structure RunResult where
  status : String
  individual : PhaseResults
  global_result : Option String
  pdf_result : Option String

/-- Embedding of ConsolidatedSummarizer.summarize_all: run the individual
phase; when it produced neither a success nor a skip, stop with status
no_files, a None global result and no further phase; otherwise run the
global and report phases (abstracted as generators over the summaries
directory) and report success. -/
def summarize_all (force_overwrite : Bool) (fs : FileSystem)
    (jobs : List FolderJob) (globalGen pdfGen : FileSystem → String) :
    FileSystem × RunResult :=
  let out := process_individual_summaries force_overwrite fs jobs
  if out.2.processed = 0 ∧ out.2.skipped = 0 then
    (out.1, ⟨"no_files", out.2, none, none⟩)
  else
    (out.1, ⟨"success", out.2, some (globalGen out.1), some (pdfGen out.1)⟩)

/-- A 51-word transcript segment matching no keyword and no cue. -/
def text51 : String := String.intercalate " " (List.replicate 51 "aaa")

/-- A segment matching the 0.5s-delay important category and the 3.0s-delay
screen_sharing category. -/
def exDelayText : String := "important: i will share my screen"

/-- A concrete candidate at 100s with relevance 1. -/
def cA : KeyframeCandidate := ⟨100, "00:01:40.000", 1, "ctx a", 0, 0⟩

/-- A concrete candidate at 30s with relevance 0. -/
def cB : KeyframeCandidate := ⟨30, "00:00:30.000", 0, "ctx b", 1, 0⟩

/-- A concrete candidate at 200s with relevance 0. -/
def cC : KeyframeCandidate := ⟨200, "00:03:20.000", 0, "ctx c", 2, 0⟩

/-- A concrete 100-second video at 1 fps where every read and write
succeeds. -/
def vC2 : VideoProps := ⟨1, 100, fun _ => true, fun _ => true⟩

/-- A concrete folder with a valid transcript, a working summary pipeline
and no video file. -/
def jC9 : FolderJob := ⟨"m1", false, true, "sum", none, []⟩

set_option maxRecDepth 8000

theorem innerFold_snd (tl : String) (w d : ℚ) :
    ∀ (kws : List String) (acc : ℚ × ℚ),
      (kws.foldl
        (fun a kw => if strContains kw tl then (a.1 + w, max a.2 d) else a) acc).2
      = if kws.any (fun kw => strContains kw tl) then max acc.2 d else acc.2 := by
  intro kws
  induction kws with
  | nil => intro acc; simp
  | cons kw kws ih =>
    intro acc
    by_cases h : strContains kw tl = true
    · simp only [List.foldl_cons, List.any_cons, h, if_pos, Bool.true_or, if_true]
      rw [ih]
      by_cases h2 : kws.any (fun kw => strContains kw tl) = true
      · simp [h2, max_assoc]
      · simp [h2]
    · simp only [List.foldl_cons, List.any_cons, h, Bool.false_or]
      simp only [Bool.not_eq_true] at h
      simp only [h, if_neg, Bool.false_eq_true, if_false]
      rw [ih]

theorem catFold_snd (tl : String) (cat : KeywordCategory) (acc : ℚ × ℚ) :
    (categoryFold tl acc cat).2
      = if cat.keywords.any (fun kw => strContains kw tl) then
          max acc.2 cat.delay_seconds
        else acc.2 := by
  unfold categoryFold
  rw [innerFold_snd]

theorem outerFold_snd (tl : String) :
    ∀ (cats : List KeywordCategory) (acc : ℚ × ℚ),
      (cats.foldl (categoryFold tl) acc).2
        = (cats.filter
            (fun c => c.keywords.any (fun kw => strContains kw tl))).foldl
            (fun a c => max a c.delay_seconds) acc.2 := by
  intro cats
  induction cats with
  | nil => intro acc; simp
  | cons c cats ih =>
    intro acc
    by_cases h : c.keywords.any (fun kw => strContains kw tl) = true
    · simp only [List.foldl_cons, List.filter_cons, h, if_pos]
      rw [ih, catFold_snd, if_pos h]
    · simp only [Bool.not_eq_true] at h
      simp only [List.foldl_cons, List.filter_cons, h, Bool.false_eq_true, if_false]
      rw [ih, catFold_snd]
      simp [h]

/-- Claim C1. The spec states the length bonus is 0.1 for more than 20
words and 0.2 for more than 50 words, the larger replacing the smaller.
In the source the greater-than-50 arm is an unreachable elif behind the
greater-than-20 arm: a 51-word segment with no keyword and no cue match
scores exactly 0.1, not the 0.2 the spec requires. -/
theorem C1_length_bonus_dead_branch :
    50 < wordCount text51
    ∧ calculate_relevance_score_and_delay text51 0 1 = (1/10, 0)
    ∧ (1/10 : ℚ) ≠ 2/10 := by
  have h1 : keywordScoreDelay (lowerStr text51) = (0, 0) := by decide
  have h2 : wordCount text51 = 51 := by decide
  refine ⟨by rw [h2]; norm_num, ?_, by norm_num⟩
  simp only [calculate_relevance_score_and_delay, h1, h2]
  norm_num

/-- Claim C5. The delay returned by the scoring routine is the maximum
delay_seconds over the keyword categories with at least one matching
keyword (0 when none match); in particular the example segment matching
the 0.5s important category and the 3.0s screen_sharing category gets
delay 3. -/
theorem C5_delay_dominance :
    (∀ (text : String) (i n : ℕ),
      (calculate_relevance_score_and_delay text i n).2 = matchedDelayMax text)
    ∧ (calculate_relevance_score_and_delay exDelayText 0 2).2 = 3 := by
  have hmain : ∀ (text : String) (i n : ℕ),
      (calculate_relevance_score_and_delay text i n).2 = matchedDelayMax text := by
    intro text i n
    simp only [calculate_relevance_score_and_delay, keywordScoreDelay, matchedDelayMax]
    rw [outerFold_snd]
  refine ⟨hmain, ?_⟩
  rw [hmain]
  have h0 : (["share my screen", "can you see", "let me show", "take a look",
      "here you can see", "on the screen"].any
        (fun kw => strContains kw (lowerStr exDelayText))) = true := by decide
  have h1 : (["sharing my screen", "screen is shared", "you should see"].any
        (fun kw => strContains kw (lowerStr exDelayText))) = false := by decide
  have h2 : (["demo", "example", "workflow", "process", "step by step",
      "walk through", "walkthrough"].any
        (fun kw => strContains kw (lowerStr exDelayText))) = false := by decide
  have h3 : (["code", "configuration", "setup", "implementation", "architecture",
      "deployment"].any
        (fun kw => strContains kw (lowerStr exDelayText))) = false := by decide
  have h4 : (["next", "now", "moving on", letsGoTo, "switch to", "another thing"].any
        (fun kw => strContains kw (lowerStr exDelayText))) = false := by decide
  have h5 : (["important", "key", "main", "critical", "essential", "note that",
      "remember"].any
        (fun kw => strContains kw (lowerStr exDelayText))) = true := by decide
  have h6 : (["question", "ask", "clarify", "understand", "explain"].any
        (fun kw => strContains kw (lowerStr exDelayText))) = false := by decide
  simp only [matchedDelayMax, relevance_keywords, List.filter_cons, List.filter_nil,
    h0, h1, h2, h3, h4, h5, h6, Bool.false_eq_true, if_true, if_false]
  simp only [List.foldl]
  rw [max_def, max_def]
  norm_num

theorem selectLoop_mem (mf : ℕ) :
    ∀ (cs sel : List KeyframeCandidate) (x : KeyframeCandidate),
      x ∈ sel → x ∈ selectLoop mf cs sel := by
  intro cs
  induction cs with
  | nil => intro sel x hx; simpa [selectLoop] using hx
  | cons c rest ih =>
    intro sel x hx
    simp only [selectLoop]
    by_cases h : tooClose c sel = true
    · simp only [h, if_true]
      exact ih sel x hx
    · simp only [h, Bool.false_eq_true, if_false]
      by_cases h2 : mf ≤ (sel ++ [c]).length
      · simp only [h2, if_true]
        exact List.mem_append_left _ hx
      · simp only [h2, if_false]
        exact ih (sel ++ [c]) x (List.mem_append_left _ hx)

theorem selectLoop_pairwise (mf : ℕ) :
    ∀ (cs sel : List KeyframeCandidate),
      sel.Pairwise spacedApart → (selectLoop mf cs sel).Pairwise spacedApart := by
  intro cs
  induction cs with
  | nil => intro sel h; simpa [selectLoop] using h
  | cons c rest ih =>
    intro sel h
    simp only [selectLoop]
    by_cases hc : tooClose c sel = true
    · simp only [hc, if_true]
      exact ih sel h
    · simp only [hc, Bool.false_eq_true, if_false]
      have hfar : ∀ s ∈ sel, spacedApart s c := by
        intro s hs
        have := hc
        simp only [tooClose, List.any_eq_true, not_exists, decide_eq_true_eq] at this
        push_neg at this
        have h60 := this s hs
        unfold spacedApart
        rw [abs_sub_comm]
        exact h60
      have hsel : (sel ++ [c]).Pairwise spacedApart := by
        rw [List.pairwise_append]
        refine ⟨h, List.pairwise_singleton _ _, ?_⟩
        intro a ha b hb
        simp only [List.mem_singleton] at hb
        subst hb
        exact hfar a ha
      by_cases h2 : mf ≤ (sel ++ [c]).length
      · simp only [h2, if_true]
        exact hsel
      · simp only [h2, if_false]
        exact ih (sel ++ [c]) hsel

theorem spacedApart_symm : Symmetric spacedApart := by
  intro a b h
  unfold spacedApart at h ⊢
  rwa [abs_sub_comm]

/-- Claim C4. When the input has more than max_frames candidates, every
pair of distinct positions in the selected output is at least 60 seconds
apart. -/
theorem C4_spacing (mf : ℕ) (cs : List KeyframeCandidate)
    (h : mf < cs.length) :
    (select_best_candidates mf cs).Pairwise spacedApart := by
  unfold select_best_candidates
  rw [if_neg (by omega)]
  have hperm := List.perm_insertionSort tsLe (selectLoop mf cs [])
  have hloop := selectLoop_pairwise mf cs [] (List.Pairwise.nil)
  exact (List.Perm.pairwise_iff (fun hab => spacedApart_symm hab) hperm).mpr hloop

/-- Witness for C4 at a concrete over-long input. -/
theorem C4_spacing_witness :
    (select_best_candidates 1 [cA, cB, cC]).Pairwise spacedApart :=
  C4_spacing 1 [cA, cB, cC] (by norm_num)

/-- Counterexample to claim C3. With the default max_frames of 5, a
two-candidate input in score order is returned unchanged, and it is not
chronologically ordered. -/
theorem C3_counterexample :
    select_best_candidates 5 [cA, cB] = [cA, cB]
    ∧ ¬ List.Sorted tsLe (select_best_candidates 5 [cA, cB]) := by
  have he : select_best_candidates 5 [cA, cB] = [cA, cB] := rfl
  refine ⟨he, ?_⟩
  rw [he]
  intro h
  rw [List.sorted_cons] at h
  have hab := h.1 cB (by simp)
  unfold tsLe at hab
  simp only [cA, cB] at hab
  norm_num at hab

/-- Claim C3 as amended. The output of _select_best_candidates is sorted
ascending by timestamp when the input exceeds max_frames; when the input
has at most max_frames candidates it is returned unchanged, in its
incoming score order, which need not be chronological. -/
theorem C3_sorted_or_unchanged (mf : ℕ) (cs : List KeyframeCandidate) :
    (mf < cs.length → List.Sorted tsLe (select_best_candidates mf cs))
    ∧ (cs.length ≤ mf → select_best_candidates mf cs = cs) := by
  constructor
  · intro h
    unfold select_best_candidates
    rw [if_neg (by omega)]
    exact List.sorted_insertionSort tsLe _
  · intro h
    unfold select_best_candidates
    rw [if_pos h]

/-- Witness for C3 as amended: both branches at concrete inputs. -/
theorem C3_sorted_or_unchanged_witness :
    List.Sorted tsLe (select_best_candidates 1 [cA, cB, cC])
    ∧ select_best_candidates 5 [cA, cB] = [cA, cB] :=
  ⟨(C3_sorted_or_unchanged 1 [cA, cB, cC]).1 (by decide),
   (C3_sorted_or_unchanged 5 [cA, cB]).2 (by decide)⟩

/-- Claim C10. When the input exceeds max_frames, the first candidate of
the score-sorted input is always selected, and under the descending score
order established by _analyze_transcript_for_keyframes it carries the
maximal relevance score of the whole input. -/
theorem C10_first_selected (mf : ℕ) (c : KeyframeCandidate)
    (cs : List KeyframeCandidate) (hlen : mf < (c :: cs).length)
    (hsorted : (c :: cs).Pairwise
      (fun a b => b.relevance_score ≤ a.relevance_score)) :
    c ∈ select_best_candidates mf (c :: cs)
    ∧ ∀ d ∈ c :: cs, d.relevance_score ≤ c.relevance_score := by
  constructor
  · unfold select_best_candidates
    rw [if_neg (by omega)]
    rw [List.mem_insertionSort]
    simp only [selectLoop, tooClose, List.any_nil, Bool.false_eq_true, if_false,
      List.nil_append]
    by_cases h2 : mf ≤ [c].length
    · rw [if_pos h2]
      exact List.mem_singleton_self c
    · rw [if_neg h2]
      exact selectLoop_mem mf cs [c] c (List.mem_singleton_self c)
  · intro d hd
    rcases List.mem_cons.mp hd with h | h
    · rw [h]
    · exact (List.pairwise_cons.mp hsorted).1 d h

/-- Witness for C10 at a concrete score-sorted over-long input. -/
theorem C10_first_selected_witness :
    cA ∈ select_best_candidates 1 [cA, cB]
    ∧ ∀ d ∈ [cA, cB], d.relevance_score ≤ cA.relevance_score :=
  C10_first_selected 1 cA [cB] (by decide)
    (by
      refine List.Pairwise.cons ?_ (List.pairwise_singleton _ _)
      intro b hb
      simp only [List.mem_singleton] at hb
      subst hb
      simp only [cA, cB]
      norm_num)

theorem extractLoop_ordinals (v : VideoProps) (out base : String) :
    ∀ (cs : List KeyframeCandidate) (i : ℕ),
      ∃ js : List ℕ, js.Pairwise (· < ·)
        ∧ (∀ j ∈ js, i ≤ j ∧ j < i + cs.length)
        ∧ (extractLoop v out base i cs).map ExtractedKeyframe.image_path
            = js.map (keyframeImagePath out base) := by
  intro cs
  induction cs with
  | nil =>
    intro i
    exact ⟨[], List.Pairwise.nil, by simp, by simp [extractLoop]⟩
  | cons c rest ih =>
    intro i
    obtain ⟨js, hpw, hbound, hmap⟩ := ih (i + 1)
    have hshift : ∀ j ∈ js, i ≤ j ∧ j < i + (c :: rest).length := by
      intro j hj
      have h1 := (hbound j hj).1
      have h2 := (hbound j hj).2
      simp only [List.length_cons]
      omega
    simp only [extractLoop]
    by_cases h1 : videoDuration v ≤ c.timestamp_seconds
    · rw [if_pos h1]
      exact ⟨js, hpw, hshift, hmap⟩
    · rw [if_neg h1]
      by_cases h2 : (v.total_frames : ℤ) ≤ pyInt (c.timestamp_seconds * v.fps)
      · rw [if_pos h2]
        exact ⟨js, hpw, hshift, hmap⟩
      · rw [if_neg h2]
        by_cases h3 : v.readOk (pyInt (c.timestamp_seconds * v.fps)) = false
        · rw [if_pos h3]
          exact ⟨js, hpw, hshift, hmap⟩
        · rw [if_neg h3]
          by_cases h4 : v.writeOk (pyInt (c.timestamp_seconds * v.fps)) = false
          · rw [if_pos h4]
            exact ⟨js, hpw, hshift, hmap⟩
          · rw [if_neg h4]
            refine ⟨i :: js, ?_, ?_, ?_⟩
            · refine List.Pairwise.cons ?_ hpw
              intro j hj
              have := (hbound j hj).1
              omega
            · intro j hj
              rcases List.mem_cons.mp hj with h | h
              · subst h
                simp only [List.length_cons]
                omega
              · exact hshift j h
            · simp only [List.map_cons, hmap]

/-- Claim C2 as amended. The image filenames produced by the extraction
loop carry the 1-based index of the candidate within the selected list:
the ordinals are strictly increasing and bounded by the candidate count,
a strictly increasing subsequence of 1..N rather than the contiguous 1..K
of the claim. -/
theorem C2_ordinals_are_candidate_indices (v : VideoProps)
    (cands : List KeyframeCandidate) (out base : String) :
    ∃ js : List ℕ, js.Pairwise (· < ·)
      ∧ (∀ j ∈ js, j < cands.length)
      ∧ (extract_frames_from_video (some v) cands out base).map
          ExtractedKeyframe.image_path = js.map (keyframeImagePath out base) := by
  obtain ⟨js, hpw, hb, hm⟩ := extractLoop_ordinals v out base cands 0
  refine ⟨js, hpw, ?_, hm⟩
  intro j hj
  have := (hb j hj).2
  omega

/-- Counterexample to claim C2. On a 100-second video with two selected
candidates whose first is beyond the duration, exactly one frame is
extracted (K = 1) but its filename carries ordinal 2, so the filenames are
not the gap-free 1..K of the claim. -/
theorem C2_counterexample :
    (extract_frames_from_video (some vC2) [cC, cB] "out" "base").map
        ExtractedKeyframe.image_path = ["out/base_2.png"]
    ∧ (["out/base_2.png"] : List String) ≠ ["out/base_1.png"] := by
  constructor
  · have hd : videoDuration vC2 ≤ cC.timestamp_seconds := by
      simp only [videoDuration, vC2, cC]
      norm_num
    have hnd : ¬ videoDuration vC2 ≤ cB.timestamp_seconds := by
      simp only [videoDuration, vC2, cB]
      norm_num
    have hpy : pyInt (cB.timestamp_seconds * vC2.fps) = 30 := by
      simp only [pyInt, cB, vC2]
      norm_num
    have hfn : ¬ ((vC2.total_frames : ℤ) ≤ pyInt (cB.timestamp_seconds * vC2.fps)) := by
      rw [hpy]
      simp only [vC2]
      norm_num
    simp only [extract_frames_from_video, extractLoop]
    rw [if_pos hd, if_neg hnd, if_neg hfn]
    simp only [vC2, Bool.true_eq_false, if_false, Bool.false_eq_true]
    rfl
  · decide

theorem countStatus_partition : ∀ rs : List SingleResult,
    countStatus .success rs + countStatus .skipped rs + countStatus .error rs
      = rs.length := by
  intro rs
  induction rs with
  | nil => rfl
  | cons r rs ih =>
    simp only [countStatus, List.filter_cons] at ih ⊢
    cases hr : r.status <;> simp [hr] <;> omega

theorem countStatus_cons_self (st : PStatus) (r : SingleResult)
    (rs : List SingleResult) (h : r.status = st) :
    countStatus st (r :: rs) = countStatus st rs + 1 := by
  simp [countStatus, List.filter_cons, h]

theorem countStatus_cons_other (st : PStatus) (r : SingleResult)
    (rs : List SingleResult) (h : ¬ r.status = st) :
    countStatus st (r :: rs) = countStatus st rs := by
  simp [countStatus, List.filter_cons, h]

theorem runPhase_length (force : Bool) :
    ∀ (jobs : List FolderJob) (fs : FileSystem),
      (runPhase force fs jobs).2.length = jobs.length := by
  intro jobs
  induction jobs with
  | nil => intro fs; rfl
  | cons j rest ih =>
    intro fs
    simp only [runPhase, List.length_cons]
    rw [ih]

theorem phaseLoop_eq (force : Bool) :
    ∀ (jobs : List FolderJob) (fs : FileSystem) (p e s : ℕ)
      (acc : List SingleResult),
      phaseLoop force fs p e s acc jobs
        = ((runPhase force fs jobs).1,
           p + countStatus .success (runPhase force fs jobs).2,
           e + countStatus .error (runPhase force fs jobs).2,
           s + countStatus .skipped (runPhase force fs jobs).2,
           acc ++ (runPhase force fs jobs).2) := by
  intro jobs
  induction jobs with
  | nil =>
    intro fs p e s acc
    simp [phaseLoop, runPhase, countStatus]
  | cons j rest ih =>
    intro fs p e s acc
    by_cases hc : j.crash = true
    · have hpo : processOne force fs j = (fs, ⟨j.name, .error, 0⟩) := by
        simp [processOne, hc]
      simp only [phaseLoop, hc, if_true, runPhase, hpo]
      rw [ih]
      rw [countStatus_cons_other .success ⟨j.name, .error, 0⟩ _ (by simp),
        countStatus_cons_other .skipped ⟨j.name, .error, 0⟩ _ (by simp),
        countStatus_cons_self .error ⟨j.name, .error, 0⟩ _ rfl]
      simp only [Prod.mk.injEq, List.append_assoc, List.singleton_append,
        true_and, and_true]
      all_goals omega
    · have hpo : processOne force fs j = process_single_vtt force fs j := by
        simp [processOne, hc]
      simp only [phaseLoop, hc, Bool.false_eq_true, if_false, runPhase, hpo]
      rcases hst : (process_single_vtt force fs j).2.status with _ | _ | _
      · rw [if_pos rfl, ih]
        rw [countStatus_cons_self .success _ _ hst,
          countStatus_cons_other .error _ _ (by simp [hst]),
          countStatus_cons_other .skipped _ _ (by simp [hst])]
        simp only [Prod.mk.injEq, List.append_assoc, List.singleton_append,
          true_and, and_true]
        all_goals omega
      · rw [if_neg (by simp), if_pos rfl, ih]
        rw [countStatus_cons_self .skipped _ _ hst,
          countStatus_cons_other .error _ _ (by simp [hst]),
          countStatus_cons_other .success _ _ (by simp [hst])]
        simp only [Prod.mk.injEq, List.append_assoc, List.singleton_append,
          true_and, and_true]
        all_goals omega
      · rw [if_neg (by simp), if_neg (by simp), ih]
        rw [countStatus_cons_self .error _ _ hst,
          countStatus_cons_other .skipped _ _ (by simp [hst]),
          countStatus_cons_other .success _ _ (by simp [hst])]
        simp only [Prod.mk.injEq, List.append_assoc, List.singleton_append,
          true_and, and_true]
        all_goals omega

theorem process_individual_eq (force : Bool) (fs : FileSystem)
    (jobs : List FolderJob) :
    process_individual_summaries force fs jobs
      = ((runPhase force fs jobs).1,
         ⟨countStatus .success (runPhase force fs jobs).2,
          countStatus .error (runPhase force fs jobs).2,
          countStatus .skipped (runPhase force fs jobs).2,
          (runPhase force fs jobs).2, jobs.length⟩) := by
  unfold process_individual_summaries
  rw [phaseLoop_eq]
  simp

/-- Claim C6. Over a non-empty set of discovered folders, the aggregated
counts of the individual phase partition the folders: processed plus
skipped plus errors equals total_folders, escaped exceptions included
among the errors. -/
theorem C6_count_invariant (force : Bool) (fs : FileSystem)
    (jobs : List FolderJob) (hne : jobs ≠ []) :
    ((process_individual_summaries force fs jobs).2).processed
      + ((process_individual_summaries force fs jobs).2).skipped
      + ((process_individual_summaries force fs jobs).2).errors
      = ((process_individual_summaries force fs jobs).2).total_folders := by
  rw [process_individual_eq]
  have hp := countStatus_partition (runPhase force fs jobs).2
  have hl := runPhase_length force jobs fs
  simp only []
  omega

/-- Witness for C6 on a one-folder run. -/
theorem C6_count_invariant_witness :
    ((process_individual_summaries false [] [jC9]).2).processed
      + ((process_individual_summaries false [] [jC9]).2).skipped
      + ((process_individual_summaries false [] [jC9]).2).errors
      = ((process_individual_summaries false [] [jC9]).2).total_folders :=
  C6_count_invariant false [] [jC9] (by simp)

/-- Claim C8. When the individual phase ends with zero success and zero
skipped results, the workflow stops with status no_files, a None global
result and no report phase. -/
theorem C8_no_files_guard (force : Bool) (fs : FileSystem)
    (jobs : List FolderJob) (gG pG : FileSystem → String)
    (hs : countStatus .success
      ((process_individual_summaries force fs jobs).2).results = 0)
    (hk : countStatus .skipped
      ((process_individual_summaries force fs jobs).2).results = 0) :
    ((summarize_all force fs jobs gG pG).2).status = "no_files"
    ∧ ((summarize_all force fs jobs gG pG).2).global_result = none
    ∧ ((summarize_all force fs jobs gG pG).2).pdf_result = none := by
  rw [process_individual_eq] at hs hk
  simp only [] at hs hk
  unfold summarize_all
  rw [process_individual_eq]
  rw [if_pos (by exact ⟨hs, hk⟩)]
  exact ⟨rfl, rfl, rfl⟩

/-- Witness for C8 on an empty input root. -/
theorem C8_no_files_guard_witness :
    ((summarize_all false [] [] (fun _ => "g") (fun _ => "p")).2).status
        = "no_files"
    ∧ ((summarize_all false [] [] (fun _ => "g") (fun _ => "p")).2).global_result
        = none
    ∧ ((summarize_all false [] [] (fun _ => "g") (fun _ => "p")).2).pdf_result
        = none :=
  C8_no_files_guard false [] [] (fun _ => "g") (fun _ => "p") rfl rfl

/-- Claim C9. When no video file is found, and likewise when the video
cannot be opened, keyframe extraction returns the empty list, and a folder
whose parsing and summary generation succeed still completes with status
success and keyframes_extracted equal to zero. -/
theorem C9_keyframe_failure_soft (cands : List KeyframeCandidate)
    (out base : String) (job : FolderJob) (fs : FileSystem) (force : Bool)
    (hc : job.crash = false) (hp : job.pipelineOk = true)
    (hv : job.video = none ∨ job.video = some none)
    (hns : lookupFS fs (summaryFilename job.name) = none ∨ force = true) :
    extract_frames_from_video none cands out base = []
    ∧ (processOne force fs job).2.status = .success
    ∧ (processOne force fs job).2.keyframes_extracted = 0 := by
  refine ⟨rfl, ?_⟩
  have hkf : keyframesOf job = [] := by
    rcases hv with hv | hv <;> simp [keyframesOf, hv, extract_frames_from_video]
  have hcond : ¬ ((lookupFS fs (summaryFilename job.name)).isSome
      ∧ force = false) := by
    rcases hns with hns | hns
    · intro hcontra
      rw [hns] at hcontra
      simp at hcontra
    · intro hcontra
      rw [hns] at hcontra
      simp at hcontra
  simp only [processOne, hc, Bool.false_eq_true, if_false]
  unfold process_single_vtt
  rw [if_neg hcond, if_pos hp]
  exact ⟨rfl, by simp [hkf]⟩

/-- Witness for C9 on a concrete folder with no video file. -/
theorem C9_keyframe_failure_soft_witness :
    extract_frames_from_video none [] "out" "base" = []
    ∧ (processOne false [] jC9).2.status = .success
    ∧ (processOne false [] jC9).2.keyframes_extracted = 0 :=
  C9_keyframe_failure_soft [] "out" "base" jC9 [] false rfl rfl
    (Or.inl rfl) (Or.inl rfl)

theorem lookupFS_writeFS_self (fs : FileSystem) (n c : String) :
    lookupFS (writeFS fs n c) n = some c := by
  unfold lookupFS writeFS
  rw [List.find?_cons_of_pos _ (by simp)]
  rfl

theorem lookupFS_writeFS_ne (fs : FileSystem) (n m c : String)
    (h : ¬ m = n) :
    lookupFS (writeFS fs m c) n = lookupFS fs n := by
  unfold lookupFS writeFS
  rw [List.find?_cons_of_neg _ (by simp [h])]

theorem processOne_mono (force : Bool) (fs : FileSystem) (j : FolderJob)
    (n : String) (h : (lookupFS fs n).isSome) :
    (lookupFS (processOne force fs j).1 n).isSome := by
  unfold processOne process_single_vtt
  by_cases hc : j.crash = true
  · simpa [hc] using h
  · simp only [hc, Bool.false_eq_true, if_false]
    by_cases h1 : (lookupFS fs (summaryFilename j.name)).isSome ∧ force = false
    · rw [if_pos h1]
      exact h
    · rw [if_neg h1]
      by_cases h2 : j.pipelineOk = true
      · rw [if_pos h2]
        by_cases he : summaryFilename j.name = n
        · rw [← he] at h ⊢
          rw [lookupFS_writeFS_self]
          rfl
        · rw [lookupFS_writeFS_ne _ _ _ _ he]
          exact h
      · rw [if_neg h2]
        exact h

theorem runPhase_mono (force : Bool) :
    ∀ (jobs : List FolderJob) (fs : FileSystem) (n : String),
      (lookupFS fs n).isSome →
        (lookupFS (runPhase force fs jobs).1 n).isSome := by
  intro jobs
  induction jobs with
  | nil => intro fs n h; exact h
  | cons j rest ih =>
    intro fs n h
    simp only [runPhase]
    exact ih _ n (processOne_mono force fs j n h)

theorem processOne_preserve (fs : FileSystem) (j : FolderJob) (n : String)
    (h : (lookupFS fs n).isSome) :
    lookupFS (processOne false fs j).1 n = lookupFS fs n := by
  unfold processOne process_single_vtt
  by_cases hc : j.crash = true
  · simp [hc]
  · simp only [hc, Bool.false_eq_true, if_false, and_true]
    by_cases h1 : (lookupFS fs (summaryFilename j.name)).isSome = true
    · rw [if_pos (by simp [h1])]
    · rw [if_neg (by simp [h1])]
      by_cases h2 : j.pipelineOk = true
      · rw [if_pos h2]
        have hne : ¬ summaryFilename j.name = n := by
          intro he
          rw [he] at h1
          exact h1 h
        exact lookupFS_writeFS_ne _ _ _ _ hne
      · rw [if_neg h2]

theorem runPhase_preserve :
    ∀ (jobs : List FolderJob) (fs : FileSystem) (n : String),
      (lookupFS fs n).isSome →
        lookupFS (runPhase false fs jobs).1 n = lookupFS fs n := by
  intro jobs
  induction jobs with
  | nil => intro fs n h; rfl
  | cons j rest ih =>
    intro fs n h
    simp only [runPhase]
    rw [ih _ n (processOne_mono false fs j n h)]
    exact processOne_preserve fs j n h

theorem runPhase_second_run_skips (force1 : Bool) :
    ∀ (jobs : List FolderJob) (g1 g2 : FileSystem),
      (∀ n, (lookupFS (runPhase force1 g1 jobs).1 n).isSome →
        (lookupFS g2 n).isSome) →
      List.Forall₂ (fun r1 r2 => r1.status = .success → r2.status = .skipped)
        (runPhase force1 g1 jobs).2 (runPhase false g2 jobs).2 := by
  intro jobs
  induction jobs with
  | nil => intro g1 g2 _; exact List.Forall₂.nil
  | cons j rest ih =>
    intro g1 g2 hsub
    simp only [runPhase]
    refine List.Forall₂.cons ?_ ?_
    · intro hsucc
      by_cases hc : j.crash = true
      · rw [show processOne force1 g1 j = (g1, ⟨j.name, .error, 0⟩) from by
          simp [processOne, hc]] at hsucc
        exact absurd hsucc (by simp)
      · have hpo1 : processOne force1 g1 j = process_single_vtt force1 g1 j := by
          simp [processOne, hc]
        rw [hpo1] at hsucc
        unfold process_single_vtt at hsucc
        by_cases h1 : (lookupFS g1 (summaryFilename j.name)).isSome
            ∧ force1 = false
        · rw [if_pos h1] at hsucc
          exact absurd hsucc (by simp)
        · rw [if_neg h1] at hsucc
          by_cases h2 : j.pipelineOk = true
          · have hfs1 : (processOne force1 g1 j).1
                = writeFS g1 (summaryFilename j.name) j.summary := by
              rw [hpo1]
              unfold process_single_vtt
              rw [if_neg h1, if_pos h2]
            have hwrote : (lookupFS (processOne force1 g1 j).1
                (summaryFilename j.name)).isSome := by
              rw [hfs1, lookupFS_writeFS_self]
              rfl
            have hg2 : (lookupFS g2 (summaryFilename j.name)).isSome := by
              apply hsub
              simp only [runPhase]
              exact runPhase_mono force1 rest _ _ hwrote
            have hpo2 : processOne false g2 j = process_single_vtt false g2 j := by
              simp [processOne, hc]
            rw [hpo2]
            unfold process_single_vtt
            rw [if_pos ⟨hg2, rfl⟩]
          · rw [if_neg h2] at hsucc
            exact absurd hsucc (by simp)
    · apply ih
      intro n hn
      have hg2 : (lookupFS g2 n).isSome := by
        apply hsub
        simp only [runPhase]
        exact hn
      exact processOne_mono false g2 j n hg2

/-- Claim C7. Running the individual phase a second time with
force_overwrite off leaves every file present after the first run with the
same content (in particular every previously written summary file is
byte-identical), and every folder whose first-run result was success is
reported as skipped by the second run. -/
theorem C7_second_run_idempotent (force1 : Bool) (fs0 : FileSystem)
    (jobs : List FolderJob) :
    (∀ n, (lookupFS ((process_individual_summaries force1 fs0 jobs).1) n).isSome →
      lookupFS ((process_individual_summaries false
          ((process_individual_summaries force1 fs0 jobs).1) jobs).1) n
        = lookupFS ((process_individual_summaries force1 fs0 jobs).1) n)
    ∧ List.Forall₂ (fun r1 r2 => r1.status = .success → r2.status = .skipped)
        ((process_individual_summaries force1 fs0 jobs).2).results
        ((process_individual_summaries false
          ((process_individual_summaries force1 fs0 jobs).1) jobs).2).results := by
  simp only [process_individual_eq]
  constructor
  · intro n h
    exact runPhase_preserve jobs _ n h
  · exact runPhase_second_run_skips force1 jobs fs0 _ (fun n h => h)

/-- Witness for C7 on a one-folder run whose first pass writes the
summary. -/
theorem C7_second_run_idempotent_witness :
    lookupFS ((process_individual_summaries false
        ((process_individual_summaries false [] [jC9]).1) [jC9]).1)
        (summaryFilename "m1")
      = lookupFS ((process_individual_summaries false [] [jC9]).1)
        (summaryFilename "m1")
    ∧ List.Forall₂ (fun r1 r2 => r1.status = .success → r2.status = .skipped)
        ((process_individual_summaries false [] [jC9]).2).results
        ((process_individual_summaries false
          ((process_individual_summaries false [] [jC9]).1) [jC9]).2).results :=
  ⟨(C7_second_run_idempotent false [] [jC9]).1 (summaryFilename "m1") (by rfl),
   (C7_second_run_idempotent false [] [jC9]).2⟩
